import Mathlib

/-!
Shallow embedding of the absences service (absences_service.py): the
progress-aggregation step, period resolution, profile resolution, and the
refresh-cache controller of the /absences endpoint.  Python float values are
modelled as exact rationals; Python `round(x, 2)` is modelled as
round-half-to-even at two decimal places; Python dictionaries keyed by
course labels are modelled as insertion-ordered association lists with
unique keys, exactly the operations the source performs on them.
-/

/-- Rounding half to even, the semantics of Python's builtin round on the
number line: the fractional part above the floor decides the direction, and
a tie goes to the even neighbour. -/
def rhe (q : ℚ) : ℤ :=
  if q - (⌊q⌋ : ℚ) < 1 / 2 then ⌊q⌋
  else if 1 / 2 < q - (⌊q⌋ : ℚ) then ⌊q⌋ + 1
  else if ⌊q⌋ % 2 = 0 then ⌊q⌋ else ⌊q⌋ + 1

/-- Models Python round(x, 2): scale by 100, round half to even, scale back. -/
def round2 (q : ℚ) : ℚ := (rhe (q * 100) : ℚ) / 100

/-- Course labels: module.get("name") may be missing, so a key in the used
dictionary is an optional string. -/
abbrev Key := Option String

/-- One parsed absence entry, the dict \x7b"course": c, "value": v\x7d built by
parse_progress_absences. -/
abbrev Entry := Key × ℚ

/-- Lookup in an insertion-ordered dictionary (Python dict.get). -/
def dictGet : List Entry → Key → Option ℚ
  | [], _ => none
  | e :: rest, k => if e.1 = k then some e.2 else dictGet rest k

/-- Assignment in an insertion-ordered dictionary (Python d[k] = v): replace
the value at an existing key in place, otherwise append at the end. -/
def dictSet : List Entry → Key → ℚ → List Entry
  | [], k, v => [(k, v)]
  | e :: rest, k, v => if e.1 = k then (k, v) :: rest else e :: dictSet rest k v

/-- One iteration of the accumulation loop in summarize:
used[a["course"]] = used.get(a["course"], 0) + a["value"]. -/
def stepUsed (d : List Entry) (a : Entry) : List Entry :=
  dictSet d a.1 ((dictGet d a.1).getD 0 + a.2)

/-- The used dictionary built by summarize from the absence entries. -/
def buildUsed (l : List Entry) : List Entry := l.foldl stepUsed []

/-- Sum of the values of a dictionary (Python sum(used.values())). -/
def valsSum (d : List Entry) : ℚ := (d.map (fun e => e.2)).sum

/-- Sum of the values recorded under one key: what the used dictionary holds
at that key once the accumulation loop is done. -/
def groupSum (l : List Entry) (k : Key) : ℚ :=
  valsSum (l.filter (fun e => e.1 = k))

/-- Whether some entry of the list carries the given course key. -/
def hasKey (l : List Entry) (k : Key) : Bool :=
  l.any (fun e => e.1 = k)

/-- The cache's unit of storage as produced by summarize: total_used and the
per-course used values (both rounded to 2 decimals) and a timestamp string.
per_course maps a course key to its used value. -/
structure Snapshot where
  total_used : ℚ
  per_course : List Entry
  last_updated : String
deriving DecidableEq

/-- Models summarize (absences_service.py lines 195-212).  The wall-clock
string datetime.utcnow().isoformat() + "Z" is passed in as a parameter. -/
def summarize (now : String) (absences : List Entry) : Snapshot :=
  { total_used := round2 (valsSum (buildUsed absences))
    per_course := (buildUsed absences).map (fun e => (e.1, round2 e.2))
    last_updated := now }

/-- One module of the progress document: optional name, optional nested
studyPeriodModule.module.title, optional absences.absences count. -/
structure ProgressModule where
  name : Option String
  title : Option String
  absences : Option ℚ
deriving DecidableEq

/-- Course label of a module: module.get("name") or nested title.  Python
`or` falls through on a falsy first operand, so an empty-string name also
falls back to the title. -/
def courseOf (m : ProgressModule) : Option String :=
  match m.name with
  | some s => if s = "" then m.title else some s
  | none => m.title

/-- Absence count of a module: module.get("absences", \x7b\x7d).get("absences", 0). -/
def absVal (m : ProgressModule) : ℚ := m.absences.getD 0

/-- Models parse_progress_absences (lines 183-193): keep modules whose count
is truthy and strictly positive, record (course label, float value). -/
def parse_progress_absences (mods : List ProgressModule) : List Entry :=
  mods.filterMap (fun m => if 0 < absVal m then some (courseOf m, absVal m) else none)

/-- One academic period: id plus the optional academicConvergence bounds,
timestamps modelled as integers on a common (UTC) time line. -/
structure Period where
  id : String
  dateFrom : Option ℤ
  dateTo : Option ℤ
deriving DecidableEq

/-- Containment test of the selection loop: both bounds present and
dateFrom <= now <= dateTo after conversion to UTC. -/
def containsNow (now : ℤ) (p : Period) : Bool :=
  match p.dateFrom, p.dateTo with
  | some f, some t => decide (f ≤ now) && decide (now ≤ t)
  | _, _ => false

/-- Sort key of the fallback: date_from_key returns the parsed dateFrom, or
datetime.min (the earliest possible time, modelled as bottom) when absent. -/
def dateFromKey (p : Period) : WithBot ℤ :=
  match p.dateFrom with
  | some t => (t : WithBot ℤ)
  | none => ⊥

/-- One comparison step of Python max: the running best is replaced only when
a strictly larger key appears, so the first maximum wins. -/
def pyMaxStep (best y : Period) : Period :=
  if dateFromKey best < dateFromKey y then y else best

/-- Models Python max(periods, key=date_from_key): none on an empty sequence
(where Python raises ValueError), else the first element of maximal key. -/
def pyMax : List Period → Option Period
  | [] => none
  | x :: xs => some (xs.foldl pyMaxStep x)

/-- Failure of period resolution: max() on an empty sequence raises, which is
the only failure of fetch_current_period_id itself. -/
inductive PeriodError
  | emptyMax
deriving DecidableEq

/-- Models fetch_current_period_id (lines 149-172) after the HTTP fetch: the
first period in input order whose range contains now wins, otherwise the
latest period by dateFrom, and the empty collection fails. -/
def fetch_current_period_id (now : ℤ) (periods : List Period) : Except PeriodError String :=
  match periods.find? (containsNow now) with
  | some p => Except.ok p.id
  | none =>
    match pyMax periods with
    | some p => Except.ok p.id
    | none => Except.error PeriodError.emptyMax

/-- One candidate profile of the academic-review response: the active flag,
the nested study.traineeRegistrationNumber, the profile's own id and the
nested study.assignedProfileId. -/
structure Profile where
  activeProfile : Bool
  regNo : Option String
  id : Option String
  assignedProfileId : Option String
deriving DecidableEq

/-- Failures of profile resolution. -/
inductive ProfileError
  | noProfilesReturned
  | profileNotMatched
deriving DecidableEq

/-- Python truthiness of an optional string: None and the empty string are
falsy. -/
def strTruthy : Option String → Bool
  | none => false
  | some s => if s = "" then false else true

/-- The candidate loop of fetch_study_profile_id: skip inactive profiles and
profiles whose registration number differs from the username; on a match
return the profile's own id if truthy, else the assigned id if truthy, else
keep scanning; raise when the loop ends. -/
def profileLoop (username : String) : List Profile → Except ProfileError String
  | [] => Except.error ProfileError.profileNotMatched
  | p :: rest =>
    if p.activeProfile = false then profileLoop username rest
    else if p.regNo = some username then
      (if strTruthy p.id then Except.ok (p.id.getD "")
       else if strTruthy p.assignedProfileId then Except.ok (p.assignedProfileId.getD "")
       else profileLoop username rest)
    else profileLoop username rest

/-- Models fetch_study_profile_id (lines 105-140) after the HTTP fetch: an
externally supplied truthy override short-circuits everything, an empty
profiles collection is its own error, otherwise the candidate loop decides. -/
def fetch_study_profile_id (override : Option String) (username : String)
    (profiles : List Profile) : Except ProfileError String :=
  if strTruthy override then Except.ok (override.getD "")
  else if profiles = [] then Except.error ProfileError.noProfilesReturned
  else profileLoop username profiles

/-- Configuration constant REFRESH_INTERVAL = 1800 seconds. -/
def REFRESH_INTERVAL : ℚ := 1800

/-- Configuration constant ERROR_BACKOFF = 300 seconds. -/
def ERROR_BACKOFF : ℚ := 300

/-- The 503 body during backoff. -/
def backoffMsg : String := "temporary backoff"

/-- The 503 body when no data was ever fetched. -/
def noDataMsg : String := "no data yet"

/-- The mutable cache dictionary of the controller. -/
structure Cache where
  data : Option Snapshot
  last_fetch : ℚ
  last_error : ℚ
deriving DecidableEq

/-- What one call to the /absences endpoint returns to its caller: a JSON
snapshot, a 503 error body, or a propagated exception. -/
inductive Response
  | ok (s : Snapshot)
  | err (msg : String)
  | raised
deriving DecidableEq

/-- Observable outcome of one endpoint call: the response, the cache
afterwards, whether this call invoked refresh_data, and whether the refresh
lock is held after the call returns. -/
structure EndpointResult where
  response : Response
  cache : Cache
  invoked : Bool
  lockAfter : Bool
deriving DecidableEq

/-- Models one call of absences_endpoint (lines 234-259).  now is the wall
clock read at entry; lockHeld is whether some other caller holds the refresh
lock, so that the non-blocking acquire fails; pipe is the outcome the
pipeline (refresh_data) would produce if invoked. -/
def absences_endpoint (now : ℚ) (lockHeld : Bool) (pipe : Except Unit Snapshot)
    (c : Cache) : EndpointResult :=
  if c.last_error ≠ 0 ∧ now - c.last_error < ERROR_BACKOFF then
    { response := match c.data with
        | some s => Response.ok s
        | none => Response.err backoffMsg
      cache := c, invoked := false, lockAfter := lockHeld }
  else if c.data = none ∨ now - c.last_fetch > REFRESH_INTERVAL then
    if lockHeld then
      { response := match c.data with
          | some s => Response.ok s
          | none => Response.err noDataMsg
        cache := c, invoked := false, lockAfter := lockHeld }
    else
      match pipe with
      | Except.ok s =>
        { response := Response.ok s
          cache := { data := some s, last_fetch := now, last_error := 0 }
          invoked := true, lockAfter := false }
      | Except.error _ =>
        { response := Response.raised
          cache := { c with last_error := now }
          invoked := true, lockAfter := false }
  else
    { response := match c.data with
        | some s => Response.ok s
        | none => Response.err noDataMsg
      cache := c, invoked := false, lockAfter := lockHeld }

/-- N concurrent calls in the window where the first caller holds the permit:
the first call finds the lock free and acquires it; the other n - 1 calls run
while it is held, so their non-blocking acquire fails and they observe the
unchanged cache. -/
def concurrentResults (now : ℚ) (pipe : Except Unit Snapshot) (c : Cache)
    (n : ℕ) : List EndpointResult :=
  absences_endpoint now false pipe c ::
    List.replicate (n - 1) (absences_endpoint now true pipe c)

/-! ### Evaluation lemmas for rounding -/

theorem rhe_lo {q : ℚ} {f : ℤ} (hf : ⌊q⌋ = f) (h : q - (f : ℚ) < 1 / 2) : rhe q = f := by
  rw [rhe, hf, if_pos h]

theorem rhe_hi {q : ℚ} {f : ℤ} (hf : ⌊q⌋ = f) (h : 1 / 2 < q - (f : ℚ)) : rhe q = f + 1 := by
  rw [rhe, hf, if_neg (not_lt.mpr (le_of_lt h)), if_pos h]

theorem round2_lo (q : ℚ) (f : ℤ) (h1 : ⌊q * 100⌋ = f) (h2 : q * 100 - (f : ℚ) < 1 / 2) :
    round2 q = (f : ℚ) / 100 := by
  rw [round2, rhe_lo h1 h2]

theorem round2_hi (q : ℚ) (f : ℤ) (h1 : ⌊q * 100⌋ = f) (h2 : 1 / 2 < q * 100 - (f : ℚ)) :
    round2 q = ((f : ℚ) + 1) / 100 := by
  rw [round2, rhe_hi h1 h2]; push_cast; ring

theorem rhe_intCast (n : ℤ) : rhe ((n : ℚ)) = n := by
  rw [rhe, Int.floor_intCast]; norm_num

/-- Rounding to 2 decimals is the identity on integer multiples of 1/100. -/
theorem round2_cent (n : ℤ) : round2 ((n : ℚ) / 100) = (n : ℚ) / 100 := by
  rw [round2, div_mul_cancel₀ _ (by norm_num : (100 : ℚ) ≠ 0), rhe_intCast]

/-! ### Dictionary lemmas -/

theorem valsSum_nil : valsSum [] = 0 := rfl

theorem valsSum_cons (e : Entry) (l : List Entry) : valsSum (e :: l) = e.2 + valsSum l := by
  simp [valsSum]

theorem dictGet_dictSet_self (d : List Entry) (k : Key) (v : ℚ) :
    dictGet (dictSet d k v) k = some v := by
  induction d with
  | nil => simp [dictSet, dictGet]
  | cons e rest ih =>
    by_cases h : e.1 = k
    · simp [dictSet, h, dictGet]
    · simp [dictSet, h, dictGet, ih]

theorem dictGet_dictSet_of_ne (d : List Entry) (k j : Key) (v : ℚ) (h : j ≠ k) :
    dictGet (dictSet d k v) j = dictGet d j := by
  induction d with
  | nil => simp [dictSet, dictGet, Ne.symm h]
  | cons e rest ih =>
    by_cases he : e.1 = k
    · have : e.1 ≠ j := by rw [he]; exact Ne.symm h
      simp [dictSet, he, dictGet, Ne.symm h, this]
    · simp [dictSet, he, dictGet, ih]

theorem mem_dictSet {d : List Entry} {k : Key} {v : ℚ} {e : Entry}
    (h : e ∈ dictSet d k v) : e = (k, v) ∨ e ∈ d := by
  induction d with
  | nil => simp [dictSet] at h; simp [h]
  | cons a rest ih =>
    by_cases ha : a.1 = k
    · rw [dictSet, if_pos ha] at h
      rcases List.mem_cons.mp h with h1 | h1
      · exact Or.inl h1
      · exact Or.inr (List.mem_cons_of_mem a h1)
    · rw [dictSet, if_neg ha] at h
      rcases List.mem_cons.mp h with h1 | h1
      · exact Or.inr (h1 ▸ List.mem_cons_self a rest)
      · rcases ih h1 with h2 | h2
        · exact Or.inl h2
        · exact Or.inr (List.mem_cons_of_mem a h2)

theorem dictGet_mem {d : List Entry} {k : Key} {w : ℚ} (h : dictGet d k = some w) :
    (k, w) ∈ d := by
  induction d with
  | nil => simp [dictGet] at h
  | cons e rest ih =>
    by_cases he : e.1 = k
    · rw [dictGet, if_pos he] at h
      have : (k, w) = e := by
        rcases e with ⟨e1, e2⟩
        simp at he h
        rw [he, h]
      exact this ▸ List.mem_cons_self e rest
    · rw [dictGet, if_neg he] at h
      exact List.mem_cons_of_mem e (ih h)

theorem valsSum_stepUsed (d : List Entry) (a : Entry) :
    valsSum (stepUsed d a) = valsSum d + a.2 := by
  rw [stepUsed]
  induction d with
  | nil => simp [dictSet, dictGet, valsSum]
  | cons e rest ih =>
    by_cases h : e.1 = a.1
    · rw [dictGet, if_pos h, dictSet, if_pos h]
      simp [valsSum_cons]
      ring
    · rw [dictGet, if_neg h, dictSet, if_neg h]
      rw [valsSum_cons, valsSum_cons, ih]
      ring

theorem valsSum_foldl_stepUsed (l : List Entry) :
    ∀ d : List Entry, valsSum (l.foldl stepUsed d) = valsSum d + valsSum l := by
  induction l with
  | nil => intro d; simp [valsSum_nil]
  | cons a l ih =>
    intro d
    rw [List.foldl_cons, ih, valsSum_stepUsed, valsSum_cons]
    ring

theorem valsSum_buildUsed (l : List Entry) : valsSum (buildUsed l) = valsSum l := by
  rw [buildUsed, valsSum_foldl_stepUsed, valsSum_nil, zero_add]

theorem hasKey_nil (k : Key) : hasKey [] k = false := rfl

theorem hasKey_cons (a : Entry) (l : List Entry) (k : Key) :
    hasKey (a :: l) k = (decide (a.1 = k) || hasKey l k) := by
  simp [hasKey]

theorem groupSum_cons (a : Entry) (l : List Entry) (k : Key) :
    groupSum (a :: l) k = (if a.1 = k then a.2 else 0) + groupSum l k := by
  by_cases h : a.1 = k
  · simp [groupSum, List.filter_cons, h, valsSum_cons]
  · simp [groupSum, List.filter_cons, h]

theorem groupSum_eq_zero {l : List Entry} {k : Key} (h : hasKey l k = false) :
    groupSum l k = 0 := by
  induction l with
  | nil => rfl
  | cons a l ih =>
    rw [hasKey_cons, Bool.or_eq_false_iff] at h
    rw [groupSum_cons, if_neg (by simpa using h.1), ih h.2, add_zero]

theorem dictGet_foldl_stepUsed (l : List Entry) :
    ∀ (d : List Entry) (k : Key), dictGet (l.foldl stepUsed d) k =
      if hasKey l k then some ((dictGet d k).getD 0 + groupSum l k) else dictGet d k := by
  induction l with
  | nil => intro d k; simp [hasKey_nil]
  | cons a l ih =>
    intro d k
    rw [List.foldl_cons, ih, hasKey_cons, groupSum_cons]
    by_cases hak : a.1 = k
    · have hs : dictGet (stepUsed d a) k = some ((dictGet d k).getD 0 + a.2) := by
        rw [← hak]; exact dictGet_dictSet_self d a.1 _
      by_cases hl : hasKey l k
      · simp [hak, hl, hs, add_assoc]
      · have hz : groupSum l k = 0 := groupSum_eq_zero (by simpa using hl)
        simp [hak, hl, hs, hz, add_assoc]
    · have hs : dictGet (stepUsed d a) k = dictGet d k :=
        dictGet_dictSet_of_ne d a.1 k _ (fun h => hak h.symm)
      simp [hak, hs]

theorem dictGet_buildUsed (l : List Entry) (k : Key) :
    dictGet (buildUsed l) k = if hasKey l k then some (groupSum l k) else none := by
  rw [buildUsed, dictGet_foldl_stepUsed]
  simp [dictGet]

theorem dictGet_map_round2 (d : List Entry) (k : Key) :
    dictGet (d.map (fun e => (e.1, round2 e.2))) k = (dictGet d k).map round2 := by
  induction d with
  | nil => simp [dictGet]
  | cons e rest ih =>
    by_cases h : e.1 = k
    · simp [dictGet, h]
    · simp [dictGet, h, ih]

/-! ### Permutation invariance of the grouping data -/

theorem hasKey_perm {l1 l2 : List Entry} (h : l1.Perm l2) (k : Key) :
    hasKey l1 k = hasKey l2 k := by
  rw [Bool.eq_iff_iff]
  simp only [hasKey, List.any_eq_true]
  exact ⟨fun ⟨e, he, hk⟩ => ⟨e, h.mem_iff.mp he, hk⟩,
    fun ⟨e, he, hk⟩ => ⟨e, h.mem_iff.mpr he, hk⟩⟩

theorem valsSum_perm {l1 l2 : List Entry} (h : l1.Perm l2) : valsSum l1 = valsSum l2 :=
  List.Perm.sum_eq (h.map (fun e => e.2))

theorem groupSum_perm {l1 l2 : List Entry} (h : l1.Perm l2) (k : Key) :
    groupSum l1 k = groupSum l2 k :=
  valsSum_perm (h.filter (fun e => decide (e.1 = k)))

/-! ### Values that are integer multiples of 1/100 -/

theorem cent_add {a b : ℚ} (ha : ∃ n : ℤ, a = (n : ℚ) / 100) (hb : ∃ n : ℤ, b = (n : ℚ) / 100) :
    ∃ n : ℤ, a + b = (n : ℚ) / 100 := by
  obtain ⟨m, rfl⟩ := ha
  obtain ⟨n, rfl⟩ := hb
  exact ⟨m + n, by push_cast; ring⟩

theorem cent_stepUsed {d : List Entry} {a : Entry}
    (hd : ∀ e ∈ d, ∃ n : ℤ, e.2 = (n : ℚ) / 100) (ha : ∃ n : ℤ, a.2 = (n : ℚ) / 100) :
    ∀ e ∈ stepUsed d a, ∃ n : ℤ, e.2 = (n : ℚ) / 100 := by
  intro e he
  rcases mem_dictSet he with heq | hmem
  · rw [heq]
    apply cent_add ?_ ha
    cases hg : dictGet d a.1 with
    | none => exact ⟨0, by norm_num⟩
    | some w => simpa using hd _ (dictGet_mem hg)
  · exact hd e hmem

theorem cent_foldl (l : List Entry) :
    ∀ d : List Entry, (∀ e ∈ d, ∃ n : ℤ, e.2 = (n : ℚ) / 100) →
      (∀ e ∈ l, ∃ n : ℤ, e.2 = (n : ℚ) / 100) →
      ∀ e ∈ l.foldl stepUsed d, ∃ n : ℤ, e.2 = (n : ℚ) / 100 := by
  induction l with
  | nil => intro d hd _; simpa using hd
  | cons a l ih =>
    intro d hd hl
    rw [List.foldl_cons]
    exact ih _ (cent_stepUsed hd (hl a (List.mem_cons_self a l)))
      (fun e he => hl e (List.mem_cons_of_mem a he))

theorem cent_buildUsed {l : List Entry} (h : ∀ e ∈ l, ∃ n : ℤ, e.2 = (n : ℚ) / 100) :
    ∀ e ∈ buildUsed l, ∃ n : ℤ, e.2 = (n : ℚ) / 100 :=
  cent_foldl l [] (by simp) h

theorem cent_valsSum {d : List Entry} (h : ∀ e ∈ d, ∃ n : ℤ, e.2 = (n : ℚ) / 100) :
    ∃ n : ℤ, valsSum d = (n : ℚ) / 100 := by
  induction d with
  | nil => exact ⟨0, by norm_num [valsSum_nil]⟩
  | cons e rest ih =>
    rw [valsSum_cons]
    exact cent_add (h e (List.mem_cons_self e rest))
      (ih fun x hx => h x (List.mem_cons_of_mem e hx))

theorem sum_map_round2 {d : List Entry} (h : ∀ e ∈ d, round2 e.2 = e.2) :
    ((d.map (fun e => (e.1, round2 e.2))).map (fun e => e.2)).sum = valsSum d := by
  induction d with
  | nil => simp [valsSum]
  | cons e rest ih =>
    simp only [List.map_cons, List.sum_cons]
    rw [h e (List.mem_cons_self e rest), valsSum_cons,
      ih fun x hx => h x (List.mem_cons_of_mem e hx)]

/-- C1 (counterexample): with the two courses A and B each carrying 0.004
absences, total_used is 0.01 while the per_course used values are both 0, so
total_used differs from the sum of the per_course used values. -/
theorem summarize_total_ne_sum_rounded :
    (summarize "t" [(some "A", 1 / 250), (some "B", 1 / 250)]).total_used ≠
      (((summarize "t" [(some "A", 1 / 250), (some "B", 1 / 250)]).per_course.map
        (fun e => e.2)).sum) := by
  have h : (some "A" : Key) ≠ some "B" := by decide
  have r1 : round2 (1 / 250) = 0 := by
    rw [round2_lo (1 / 250) 0 (by norm_num) (by norm_num)]; norm_num
  have r2 : round2 (1 / 125) = 1 / 100 := by
    rw [round2_hi (1 / 125) 0 (by norm_num) (by norm_num)]; norm_num
  norm_num [summarize, buildUsed, stepUsed, dictSet, dictGet, valsSum, h, h.symm, r1, r2]

/-- C1 (amended): total_used is the unrounded sum of the per-course sums,
rounded once at the end; whenever every absence value is an integer multiple
of 0.01 this coincides with the sum of the rounded per_course used values. -/
theorem summarize_total_eq_sum_of_cent (now : String) (l : List Entry)
    (h : ∀ e ∈ l, ∃ n : ℤ, e.2 = (n : ℚ) / 100) :
    (summarize now l).total_used =
      (((summarize now l).per_course.map (fun e => e.2)).sum) := by
  have hbu := cent_buildUsed h
  have hround : ∀ e ∈ buildUsed l, round2 e.2 = e.2 := by
    intro e he
    obtain ⟨n, hn⟩ := hbu e he
    rw [hn, round2_cent]
  obtain ⟨n, hn⟩ := cent_valsSum hbu
  simp only [summarize]
  rw [hn, round2_cent, sum_map_round2 hround, hn]

/-- C1 witness for the amended theorem at a concrete input. -/
theorem summarize_total_eq_sum_of_cent_witness :
    (summarize "t" [(some "A", 1 / 4)]).total_used =
      (((summarize "t" [(some "A", 1 / 4)]).per_course.map (fun e => e.2)).sum) :=
  summarize_total_eq_sum_of_cent "t" [(some "A", 1 / 4)]
    (by
      intro e he
      rw [List.mem_singleton] at he
      rw [he]
      exact ⟨25, by norm_num⟩)

/-- C6: permuting the module list before aggregation yields an identical
Snapshot: the same total_used, the same per_course mapping (equal lookups at
every course key), and the same timestamp. -/
theorem summarize_perm_invariant (now : String) (mods1 mods2 : List ProgressModule)
    (h : mods1.Perm mods2) :
    (summarize now (parse_progress_absences mods1)).total_used =
        (summarize now (parse_progress_absences mods2)).total_used ∧
      (∀ k : Key,
        dictGet (summarize now (parse_progress_absences mods1)).per_course k =
          dictGet (summarize now (parse_progress_absences mods2)).per_course k) ∧
      (summarize now (parse_progress_absences mods1)).last_updated =
        (summarize now (parse_progress_absences mods2)).last_updated := by
  have hp : (parse_progress_absences mods1).Perm (parse_progress_absences mods2) :=
    h.filterMap _
  refine ⟨?_, ?_, rfl⟩
  · simp only [summarize]
    rw [valsSum_buildUsed, valsSum_buildUsed, valsSum_perm hp]
  · intro k
    simp only [summarize]
    rw [dictGet_map_round2, dictGet_map_round2, dictGet_buildUsed, dictGet_buildUsed,
      hasKey_perm hp, groupSum_perm hp]

/-- C6 witness: swapping two modules leaves the snapshot unchanged. -/
theorem summarize_perm_invariant_witness :
    (summarize "t" (parse_progress_absences
        [{ name := some "Math", title := none, absences := some 3 },
         { name := some "Art", title := none, absences := some 2 }])).total_used =
      (summarize "t" (parse_progress_absences
        [{ name := some "Art", title := none, absences := some 2 },
         { name := some "Math", title := none, absences := some 3 }])).total_used :=
  (summarize_perm_invariant "t" _ _ (by decide)).1

/-- C7: modules with a non-positive absence count never appear in per_course
(a course all of whose modules have non-positive counts is absent from the
mapping), dropping them from the input changes nothing, and the example list
Math:3, Math:1.5, Art:0 yields total_used 4.5 with only Math in per_course. -/
theorem nonpositive_modules_excluded (now : String) :
    (∀ (mods : List ProgressModule) (k : Key),
        (∀ m ∈ mods, courseOf m = k → absVal m ≤ 0) →
        dictGet (summarize now (parse_progress_absences mods)).per_course k = none) ∧
      (∀ mods : List ProgressModule,
        parse_progress_absences mods =
          parse_progress_absences (mods.filter (fun m => decide (0 < absVal m)))) ∧
      summarize "t" (parse_progress_absences
          [{ name := some "Math", title := none, absences := some 3 },
           { name := some "Math", title := none, absences := some (3 / 2) },
           { name := some "Art", title := none, absences := some 0 }]) =
        { total_used := 9 / 2, per_course := [(some "Math", 9 / 2)], last_updated := "t" } := by
  refine ⟨?_, ?_, ?_⟩
  · intro mods k hk
    simp only [summarize]
    rw [dictGet_map_round2, dictGet_buildUsed]
    have hfalse : hasKey (parse_progress_absences mods) k = false := by
      rw [Bool.eq_false_iff]
      intro hany
      unfold hasKey at hany
      obtain ⟨e, he, hek⟩ := List.any_eq_true.mp hany
      obtain ⟨m, hm, hme⟩ := List.mem_filterMap.mp he
      by_cases hv : 0 < absVal m
      · rw [if_pos hv] at hme
        have hcourse : courseOf m = k := by
          have he2 : e = (courseOf m, absVal m) := (Option.some.inj hme).symm
          rw [he2] at hek
          simpa using hek
        exact absurd hv (not_lt.mpr (hk m hm hcourse))
      · rw [if_neg hv] at hme
        exact Option.noConfusion hme
    rw [hfalse]
    simp
  · intro mods
    induction mods with
    | nil => rfl
    | cons m mods ih =>
      by_cases hm : 0 < absVal m
      · simp [parse_progress_absences, List.filterMap_cons, List.filter_cons, hm] at ih ⊢
        exact ih
      · simp [parse_progress_absences, List.filterMap_cons, List.filter_cons, hm] at ih ⊢
        exact ih
  · have hM : ("Math" : String) ≠ "" := by decide
    have hparse :
        parse_progress_absences
          [{ name := some "Math", title := none, absences := some 3 },
           { name := some "Math", title := none, absences := some (3 / 2) },
           { name := some "Art", title := none, absences := some 0 }] =
          [(some "Math", 3), (some "Math", 3 / 2)] := by
      norm_num [parse_progress_absences, absVal, courseOf, List.filterMap_cons, hM]
    rw [hparse]
    have r : round2 (9 / 2) = 9 / 2 := by
      rw [round2_lo (9 / 2) 450 (by norm_num) (by norm_num)]; norm_num
    norm_num [summarize, buildUsed, stepUsed, dictSet, dictGet, valsSum, r, Snapshot.mk.injEq]

/-- C7 witness: a course whose only module has a zero count is absent from
per_course. -/
theorem nonpositive_modules_excluded_witness :
    dictGet (summarize "t" (parse_progress_absences
        [{ name := some "Art", title := none, absences := some 0 }])).per_course
      (some "Art") = none :=
  (nonpositive_modules_excluded "t").1
    [{ name := some "Art", title := none, absences := some 0 }] (some "Art")
    (by
      intro m hm _
      rw [List.mem_singleton] at hm
      rw [hm]
      norm_num [absVal])

/-- C10: a module with a strictly positive count but neither a name nor a
nested title is kept: it is recorded under the absent (none) course label,
that label is a key of per_course, and total_used is the rounded sum over all
kept entries, this one included. -/
theorem unnamed_module_kept (now : String) (mods : List ProgressModule)
    (m : ProgressModule) (hm : m ∈ mods) (hname : m.name = none)
    (htitle : m.title = none) (hv : 0 < absVal m) :
    ((none : Key), absVal m) ∈ parse_progress_absences mods ∧
      (dictGet (summarize now (parse_progress_absences mods)).per_course none).isSome = true ∧
      (summarize now (parse_progress_absences mods)).total_used =
        round2 (valsSum (parse_progress_absences mods)) := by
  have hc : courseOf m = none := by simp [courseOf, hname, htitle]
  have hmem : ((none : Key), absVal m) ∈ parse_progress_absences mods :=
    List.mem_filterMap.mpr ⟨m, hm, by rw [if_pos hv, hc]⟩
  refine ⟨hmem, ?_, ?_⟩
  · simp only [summarize]
    rw [dictGet_map_round2, dictGet_buildUsed]
    have htrue : hasKey (parse_progress_absences mods) none = true := by
      unfold hasKey
      exact List.any_eq_true.mpr ⟨((none : Key), absVal m), hmem, by simp⟩
    rw [htrue]
    simp
  · simp only [summarize]
    rw [valsSum_buildUsed]

/-- C10 witness at a concrete nameless module. -/
theorem unnamed_module_kept_witness :
    ((none : Key), absVal { name := none, title := none, absences := some 1 }) ∈
      parse_progress_absences [{ name := none, title := none, absences := some 1 }] :=
  (unnamed_module_kept "t" [{ name := none, title := none, absences := some 1 }]
    { name := none, title := none, absences := some 1 }
    (List.mem_singleton.mpr rfl) rfl rfl (by norm_num [absVal])).1

/-! ### Lemmas about the period fallback maximum -/

theorem foldl_pyMaxStep_mem : ∀ (xs : List Period) (x : Period),
    xs.foldl pyMaxStep x ∈ x :: xs := by
  intro xs
  induction xs with
  | nil => intro x; simp
  | cons y ys ih =>
    intro x
    rw [List.foldl_cons]
    rcases List.mem_cons.mp (ih (pyMaxStep x y)) with h | h
    · by_cases hc : dateFromKey x < dateFromKey y
      · rw [h, pyMaxStep, if_pos hc]
        exact List.mem_cons_of_mem x (List.mem_cons_self y ys)
      · rw [h, pyMaxStep, if_neg hc]
        exact List.mem_cons_self x (y :: ys)
    · exact List.mem_cons_of_mem x (List.mem_cons_of_mem y h)

theorem foldl_pyMaxStep_le : ∀ (xs : List Period) (x z : Period), z ∈ x :: xs →
    dateFromKey z ≤ dateFromKey (xs.foldl pyMaxStep x) := by
  intro xs
  induction xs with
  | nil =>
    intro x z hz
    rw [List.mem_singleton] at hz
    rw [hz]
    exact le_refl _
  | cons y ys ih =>
    intro x z hz
    rw [List.foldl_cons]
    have hxy : dateFromKey x ≤ dateFromKey (pyMaxStep x y) := by
      rw [pyMaxStep]
      by_cases hc : dateFromKey x < dateFromKey y
      · rw [if_pos hc]; exact le_of_lt hc
      · rw [if_neg hc]
    have hyy : dateFromKey y ≤ dateFromKey (pyMaxStep x y) := by
      rw [pyMaxStep]
      by_cases hc : dateFromKey x < dateFromKey y
      · rw [if_pos hc]
      · rw [if_neg hc]; exact le_of_not_lt hc
    have hrec : dateFromKey (pyMaxStep x y) ≤ dateFromKey (ys.foldl pyMaxStep (pyMaxStep x y)) :=
      ih (pyMaxStep x y) (pyMaxStep x y) (List.mem_cons_self _ ys)
    rcases List.mem_cons.mp hz with h | h
    · rw [h]; exact le_trans hxy hrec
    · rcases List.mem_cons.mp h with h2 | h2
      · rw [h2]; exact le_trans hyy hrec
      · exact ih (pyMaxStep x y) z (List.mem_cons_of_mem _ h2)

theorem foldl_pyMaxStep_bot : ∀ (xs : List Period) (x : Period),
    (∀ z ∈ x :: xs, dateFromKey z = ⊥) → xs.foldl pyMaxStep x = x := by
  intro xs
  induction xs with
  | nil => intro x _; rfl
  | cons y ys ih =>
    intro x h
    have hx : dateFromKey x = ⊥ := h x (List.mem_cons_self x _)
    have hy : dateFromKey y = ⊥ := h y (List.mem_cons_of_mem x (List.mem_cons_self y ys))
    have hstep : pyMaxStep x y = x := by
      rw [pyMaxStep, hx, hy, if_neg (lt_irrefl ⊥)]
    rw [List.foldl_cons, hstep]
    refine ih x ?_
    intro z hz
    rcases List.mem_cons.mp hz with h2 | h2
    · exact h2 ▸ hx
    · exact h z (List.mem_cons_of_mem x (List.mem_cons_of_mem y h2))

theorem find?_first {α : Type} (p : α → Bool) :
    ∀ (l : List α) (i : ℕ) (hi : i < l.length), p (l.get ⟨i, hi⟩) = true →
      (∀ (j : ℕ) (hj : j < i), p (l.get ⟨j, Nat.lt_trans hj hi⟩) = false) →
      l.find? p = some (l.get ⟨i, hi⟩) := by
  intro l
  induction l with
  | nil => intro i hi; exact absurd hi (Nat.not_lt_zero i)
  | cons a t ih =>
    intro i hi hp hmin
    cases i with
    | zero => exact List.find?_cons_of_pos t hp
    | succ n =>
      have h0 : p a = false := hmin 0 (Nat.succ_pos n)
      rw [List.find?_cons_of_neg t (by rw [h0]; exact Bool.false_ne_true)]
      exact ih n (Nat.lt_of_succ_lt_succ hi) hp
        (fun j hj => hmin (j + 1) (Nat.succ_lt_succ hj))

/-- C4: period resolution returns the first period in input order whose
complete range contains now; failing that, it returns a period carrying the
maximum dateFrom among the periods that have one (periods without dateFrom
rank lowest); and when no period has a dateFrom at all it does not crash but
returns the first period in input order. -/
theorem fetch_current_period_id_spec (now : ℤ) (ps : List Period) :
    (∀ (i : ℕ) (hi : i < ps.length), containsNow now (ps.get ⟨i, hi⟩) = true →
        (∀ (j : ℕ) (hj : j < i), containsNow now (ps.get ⟨j, Nat.lt_trans hj hi⟩) = false) →
        fetch_current_period_id now ps = Except.ok (ps.get ⟨i, hi⟩).id) ∧
      (∀ m : ℤ, (∀ p ∈ ps, containsNow now p = false) →
        (∃ p ∈ ps, p.dateFrom = some m) →
        (∀ p ∈ ps, ∀ m2 : ℤ, p.dateFrom = some m2 → m2 ≤ m) →
        ∃ q ∈ ps, q.dateFrom = some m ∧ fetch_current_period_id now ps = Except.ok q.id) ∧
      (∀ h : ps ≠ [], (∀ p ∈ ps, containsNow now p = false) →
        (∀ p ∈ ps, p.dateFrom = none) →
        fetch_current_period_id now ps = Except.ok (ps.head h).id) := by
  refine ⟨?_, ?_, ?_⟩
  · intro i hi hp hmin
    rw [fetch_current_period_id, find?_first (containsNow now) ps i hi hp hmin]
  · intro m hno hex hmax
    have hnone : ps.find? (containsNow now) = none :=
      List.find?_eq_none.mpr (fun x hx => by rw [hno x hx]; exact Bool.false_ne_true)
    obtain ⟨p0, hp0, hdf⟩ := hex
    cases ps with
    | nil => exact absurd hp0 (List.not_mem_nil p0)
    | cons x xs =>
      have hwmem : xs.foldl pyMaxStep x ∈ x :: xs := foldl_pyMaxStep_mem xs x
      have hle : dateFromKey p0 ≤ dateFromKey (xs.foldl pyMaxStep x) :=
        foldl_pyMaxStep_le xs x p0 hp0
      have hkey : dateFromKey p0 = (m : WithBot ℤ) := by
        rw [dateFromKey, hdf]
      rw [hkey] at hle
      cases hw : (xs.foldl pyMaxStep x).dateFrom with
      | none =>
        rw [dateFromKey, hw] at hle
        exact absurd (le_bot_iff.mp hle) (WithBot.coe_ne_bot)
      | some m2 =>
        rw [dateFromKey, hw] at hle
        have hm2 : m2 = m :=
          le_antisymm (hmax _ hwmem m2 hw) (WithBot.coe_le_coe.mp hle)
        refine ⟨xs.foldl pyMaxStep x, hwmem, by rw [hw, hm2], ?_⟩
        rw [fetch_current_period_id, hnone]
        rfl
  · intro h hno hall
    have hnone : ps.find? (containsNow now) = none :=
      List.find?_eq_none.mpr (fun x hx => by rw [hno x hx]; exact Bool.false_ne_true)
    cases ps with
    | nil => exact absurd rfl h
    | cons x xs =>
      have hfold : xs.foldl pyMaxStep x = x := by
        refine foldl_pyMaxStep_bot xs x ?_
        intro z hz
        rw [dateFromKey, hall z hz]
      rw [fetch_current_period_id, hnone, List.head_cons]
      simp [pyMax, hfold]

/-- C4 witness: a collection whose only period has no bounds resolves, via
the fallback, to that period. -/
theorem fetch_current_period_id_spec_witness :
    fetch_current_period_id 0 [{ id := "p1", dateFrom := none, dateTo := none }] =
      Except.ok (([{ id := "p1", dateFrom := none, dateTo := none }] :
        List Period).head (by simp)).id :=
  (fetch_current_period_id_spec 0 _).2.2 (by simp)
    (by intro p hp; rw [List.mem_singleton] at hp; rw [hp]; rfl)
    (by intro p hp; rw [List.mem_singleton] at hp; rw [hp])

/-- C8: period resolution on the empty collection fails: the containment
loop finds nothing and max() has no element to return, so the call raises
instead of producing an id (the spec's NoPeriodsAvailable failure). -/
theorem fetch_current_period_id_empty (now : ℤ) :
    fetch_current_period_id now ([] : List Period) = Except.error PeriodError.emptyMax := rfl

/-! ### Profile-loop lemmas -/

theorem profileLoop_ok {u : String} : ∀ {ps : List Profile} {v : String},
    profileLoop u ps = Except.ok v →
    ∃ p ∈ ps, (p.activeProfile = true ∧ p.regNo = some u) ∧
      ((strTruthy p.id = true ∧ v = p.id.getD "") ∨
        (strTruthy p.id = false ∧ strTruthy p.assignedProfileId = true ∧
          v = p.assignedProfileId.getD "")) := by
  intro ps
  induction ps with
  | nil => intro v h; exact absurd h (by rw [profileLoop]; intro hcon; exact Except.noConfusion hcon)
  | cons p rest ih =>
    intro v h
    rw [profileLoop] at h
    by_cases hact : p.activeProfile = false
    · rw [if_pos hact] at h
      obtain ⟨q, hq, hrest⟩ := ih h
      exact ⟨q, List.mem_cons_of_mem p hq, hrest⟩
    · rw [if_neg hact] at h
      have hact2 : p.activeProfile = true := by
        revert hact; cases p.activeProfile <;> simp
      by_cases hreg : p.regNo = some u
      · rw [if_pos hreg] at h
        by_cases hid : strTruthy p.id = true
        · rw [if_pos hid] at h
          exact ⟨p, List.mem_cons_self p rest, ⟨hact2, hreg⟩,
            Or.inl ⟨hid, (Except.ok.inj h).symm⟩⟩
        · rw [if_neg hid] at h
          have hid2 : strTruthy p.id = false := by
            revert hid; cases strTruthy p.id <;> simp
          by_cases hass : strTruthy p.assignedProfileId = true
          · rw [if_pos hass] at h
            exact ⟨p, List.mem_cons_self p rest, ⟨hact2, hreg⟩,
              Or.inr ⟨hid2, hass, (Except.ok.inj h).symm⟩⟩
          · rw [if_neg hass] at h
            obtain ⟨q, hq, hrest⟩ := ih h
            exact ⟨q, List.mem_cons_of_mem p hq, hrest⟩
      · rw [if_neg hreg] at h
        obtain ⟨q, hq, hrest⟩ := ih h
        exact ⟨q, List.mem_cons_of_mem p hq, hrest⟩

theorem profileLoop_err {u : String} : ∀ {ps : List Profile},
    (∀ p ∈ ps, p.activeProfile = true → p.regNo = some u →
      strTruthy p.id = false ∧ strTruthy p.assignedProfileId = false) →
    profileLoop u ps = Except.error ProfileError.profileNotMatched := by
  intro ps
  induction ps with
  | nil => intro _; rfl
  | cons p rest ih =>
    intro h
    have hrest : profileLoop u rest = Except.error ProfileError.profileNotMatched :=
      ih (fun q hq => h q (List.mem_cons_of_mem p hq))
    rw [profileLoop]
    by_cases hact : p.activeProfile = false
    · rw [if_pos hact]; exact hrest
    · rw [if_neg hact]
      have hact2 : p.activeProfile = true := by
        revert hact; cases p.activeProfile <;> simp
      by_cases hreg : p.regNo = some u
      · rw [if_pos hreg]
        obtain ⟨h1, h2⟩ := h p (List.mem_cons_self p rest) hact2 hreg
        rw [if_neg (by rw [h1]; exact Bool.false_ne_true),
          if_neg (by rw [h2]; exact Bool.false_ne_true)]
        exact hrest
      · rw [if_neg hreg]; exact hrest

/-- C5: with no external override, profile resolution only ever returns an
identifier taken from a candidate that is active and whose registration
number equals the username, preferring that candidate's own id and falling
back to its assignedProfileId; and it fails with ProfileNotMatched when no
candidate satisfies both conditions, or when every candidate satisfying both
yields neither identifier field. -/
theorem fetch_study_profile_id_spec (u : String) (ps : List Profile) :
    (∀ v : String, fetch_study_profile_id none u ps = Except.ok v →
        ∃ p ∈ ps, (p.activeProfile = true ∧ p.regNo = some u) ∧
          ((strTruthy p.id = true ∧ v = p.id.getD "") ∨
            (strTruthy p.id = false ∧ strTruthy p.assignedProfileId = true ∧
              v = p.assignedProfileId.getD ""))) ∧
      (ps ≠ [] → (∀ p ∈ ps, ¬(p.activeProfile = true ∧ p.regNo = some u)) →
        fetch_study_profile_id none u ps = Except.error ProfileError.profileNotMatched) ∧
      (ps ≠ [] → (∀ p ∈ ps, p.activeProfile = true → p.regNo = some u →
          strTruthy p.id = false ∧ strTruthy p.assignedProfileId = false) →
        fetch_study_profile_id none u ps = Except.error ProfileError.profileNotMatched) := by
  have hov : fetch_study_profile_id none u ps =
      if ps = [] then Except.error ProfileError.noProfilesReturned else profileLoop u ps := rfl
  refine ⟨?_, ?_, ?_⟩
  · intro v h
    rw [hov] at h
    by_cases hne : ps = []
    · rw [if_pos hne] at h
      exact absurd h (by intro hcon; exact Except.noConfusion hcon)
    · rw [if_neg hne] at h
      exact profileLoop_ok h
  · intro hne hno
    rw [hov, if_neg hne]
    exact profileLoop_err (fun p hp hact hreg => absurd ⟨hact, hreg⟩ (hno p hp))
  · intro hne h
    rw [hov, if_neg hne]
    exact profileLoop_err h

/-- C5 witness: one active matching candidate with an own id resolves to it. -/
theorem fetch_study_profile_id_spec_witness :
    ∃ p ∈ [({ activeProfile := true, regNo := some "u", id := some "pid", assignedProfileId := none } : Profile)],
      (p.activeProfile = true ∧ p.regNo = some "u") ∧
        ((strTruthy p.id = true ∧ "pid" = p.id.getD "") ∨
          (strTruthy p.id = false ∧ strTruthy p.assignedProfileId = true ∧
            "pid" = p.assignedProfileId.getD "")) :=
  (fetch_study_profile_id_spec "u" _).1 "pid" rfl

/-- C2: while inside the error-backoff window (a failure is recorded and now
is within ERROR_BACKOFF of it) a call never invokes the pipeline, leaves the
cache untouched, returns the existing snapshot when there is one, and
otherwise returns the backoff unavailability, which is distinct from the
no-data-yet one. -/
theorem backoff_no_refresh (now : ℚ) (lockHeld : Bool) (pipe : Except Unit Snapshot)
    (c : Cache) (herr : c.last_error ≠ 0) (hback : now - c.last_error < ERROR_BACKOFF) :
    (absences_endpoint now lockHeld pipe c).invoked = false ∧
      (absences_endpoint now lockHeld pipe c).cache = c ∧
      (∀ s : Snapshot, c.data = some s →
        (absences_endpoint now lockHeld pipe c).response = Response.ok s) ∧
      (c.data = none →
        (absences_endpoint now lockHeld pipe c).response = Response.err backoffMsg ∧
          Response.err backoffMsg ≠ Response.err noDataMsg) := by
  rw [absences_endpoint.eq_def, if_pos ⟨herr, hback⟩]
  refine ⟨rfl, rfl, ?_, ?_⟩
  · intro s hs
    simp [hs]
  · intro hs
    refine ⟨by simp [hs], ?_⟩
    intro hcon
    exact absurd (Response.err.inj hcon) (by decide)

/-- C2 witness: inside the backoff window with no stored snapshot. -/
theorem backoff_no_refresh_witness :
    (absences_endpoint 2 false (Except.error ())
        { data := none, last_fetch := 0, last_error := 1 }).invoked = false ∧
      (absences_endpoint 2 false (Except.error ())
        { data := none, last_fetch := 0, last_error := 1 }).cache =
          { data := none, last_fetch := 0, last_error := 1 } ∧
      (∀ s : Snapshot, ({ data := none, last_fetch := 0, last_error := 1 } : Cache).data = some s →
        (absences_endpoint 2 false (Except.error ())
          { data := none, last_fetch := 0, last_error := 1 }).response = Response.ok s) ∧
      (({ data := none, last_fetch := 0, last_error := 1 } : Cache).data = none →
        (absences_endpoint 2 false (Except.error ())
            { data := none, last_fetch := 0, last_error := 1 }).response =
              Response.err backoffMsg ∧
          Response.err backoffMsg ≠ Response.err noDataMsg) :=
  backoff_no_refresh 2 false (Except.error ())
    { data := none, last_fetch := 0, last_error := 1 } (by norm_num) (by norm_num [ERROR_BACKOFF])

/-- C3: when a call that is outside the backoff window finds the data absent
or stale, acquires the free permit and the pipeline run fails, it records now
as the failure timestamp, keeps the stored snapshot and the success timestamp
unchanged, releases the permit, and propagates the exception to this caller. -/
theorem refresh_failure_effects (now : ℚ) (c : Cache)
    (hnb : ¬(c.last_error ≠ 0 ∧ now - c.last_error < ERROR_BACKOFF))
    (hst : c.data = none ∨ now - c.last_fetch > REFRESH_INTERVAL) :
    (absences_endpoint now false (Except.error ()) c).cache.last_error = now ∧
      (absences_endpoint now false (Except.error ()) c).cache.data = c.data ∧
      (absences_endpoint now false (Except.error ()) c).cache.last_fetch = c.last_fetch ∧
      (absences_endpoint now false (Except.error ()) c).lockAfter = false ∧
      (absences_endpoint now false (Except.error ()) c).response = Response.raised ∧
      (absences_endpoint now false (Except.error ()) c).invoked = true := by
  rw [absences_endpoint.eq_def, if_neg hnb, if_pos hst]
  simp

/-- C3 witness: a failing refresh on a stale cache at a concrete time. -/
theorem refresh_failure_effects_witness :
    (absences_endpoint 2000 false (Except.error ())
        { data := none, last_fetch := 0, last_error := 0 }).cache.last_error = 2000 ∧
      (absences_endpoint 2000 false (Except.error ())
        { data := none, last_fetch := 0, last_error := 0 }).cache.data =
          ({ data := none, last_fetch := 0, last_error := 0 } : Cache).data ∧
      (absences_endpoint 2000 false (Except.error ())
        { data := none, last_fetch := 0, last_error := 0 }).cache.last_fetch =
          ({ data := none, last_fetch := 0, last_error := 0 } : Cache).last_fetch ∧
      (absences_endpoint 2000 false (Except.error ())
        { data := none, last_fetch := 0, last_error := 0 }).lockAfter = false ∧
      (absences_endpoint 2000 false (Except.error ())
        { data := none, last_fetch := 0, last_error := 0 }).response = Response.raised ∧
      (absences_endpoint 2000 false (Except.error ())
        { data := none, last_fetch := 0, last_error := 0 }).invoked = true :=
  refresh_failure_effects 2000 { data := none, last_fetch := 0, last_error := 0 }
    (by norm_num) (Or.inl rfl)

/-- C9: with a stale snapshot present, no recorded failure and the permit
free, a batch of n concurrent calls invokes the pipeline exactly once; every
other call skips the refresh, returns the existing snapshot at once and
leaves the cache as it was. -/
theorem single_refresh_under_concurrency (now : ℚ) (pipe : Except Unit Snapshot)
    (c : Cache) (s : Snapshot) (n : ℕ) (hn : 2 ≤ n) (hdata : c.data = some s)
    (hstale : now - c.last_fetch > REFRESH_INTERVAL) (hnoerr : c.last_error = 0) :
    (concurrentResults now pipe c n).countP (fun r => r.invoked) = 1 ∧
      (concurrentResults now pipe c n).length = n ∧
      (∀ r ∈ (concurrentResults now pipe c n).tail,
        r.invoked = false ∧ r.response = Response.ok s ∧ r.cache = c) := by
  have hnb : ¬(c.last_error ≠ 0 ∧ now - c.last_error < ERROR_BACKOFF) := by
    rw [hnoerr]; simp
  have hst : c.data = none ∨ now - c.last_fetch > REFRESH_INTERVAL := Or.inr hstale
  have hfirst : (absences_endpoint now false pipe c).invoked = true := by
    rw [absences_endpoint.eq_def, if_neg hnb, if_pos hst]
    cases pipe <;> simp
  have hother : absences_endpoint now true pipe c =
      { response := Response.ok s, cache := c, invoked := false, lockAfter := true } := by
    rw [absences_endpoint.eq_def, if_neg hnb, if_pos hst]
    simp [hdata]
  have hrep : ∀ k : ℕ, (List.replicate k (absences_endpoint now true pipe c)).countP
      (fun r => r.invoked) = 0 := by
    intro k
    induction k with
    | zero => rfl
    | succ k ih =>
      rw [List.replicate_succ, List.countP_cons, ih, hother]
      simp
  refine ⟨?_, ?_, ?_⟩
  · rw [concurrentResults, List.countP_cons, hrep]
    simp [hfirst]
  · rw [concurrentResults]
    simp only [List.length_cons, List.length_replicate]
    omega
  · intro r hr
    rw [concurrentResults, List.tail_cons] at hr
    rw [List.eq_of_mem_replicate hr, hother]
    exact ⟨rfl, rfl, rfl⟩

/-- C9 witness: two concurrent calls on a stale cache holding a snapshot. -/
theorem single_refresh_under_concurrency_witness :
    (concurrentResults 2000 (Except.ok { total_used := 0, per_course := [], last_updated := "t" })
        { data := some { total_used := 0, per_course := [], last_updated := "t" }, last_fetch := 0, last_error := 0 } 2).countP
      (fun r => r.invoked) = 1 :=
  (single_refresh_under_concurrency 2000
    (Except.ok { total_used := 0, per_course := [], last_updated := "t" })
    { data := some { total_used := 0, per_course := [], last_updated := "t" }, last_fetch := 0, last_error := 0 }
    { total_used := 0, per_course := [], last_updated := "t" } 2 (by norm_num) rfl
    (by norm_num [REFRESH_INTERVAL]) rfl).1
